import Mathlib

/-!
Verification of the `movement-testcontainer` repository (crates `aptos-container` and
`container-interface`). The definitions below are a shallow embedding of the code in
`src/aptos-container/src/lib.rs` and `src/container-interface/src/utils.rs`: pure data
transformations are translated to Lean functions, the stateful account pool becomes an explicit
state type with a step relation, and the outcomes of external container commands are passed in
as explicit inputs.
-/

namespace AptosContainer

/-- Modelled from the spec: the error enum of `container-interface/src/error.rs` is not included
under `src/` (only its `use` declaration in `aptos-container/src/lib.rs` line 23 is). The spec
names a `CommandExecutionFailed{command, stderr}` error (code: `CommandFailed`) and a
`CommandExecutionFailed{exitCode}` error (code: `DockerExecFailed`). -/
inductive MovementTestContainerError where
  | commandFailed (command : String) (stderr : String)
  | dockerExecFailed (code : Int)
  deriving DecidableEq

/-- The observable outcome of one `container.exec` call, as consumed by `run_command`
(lib.rs lines 53-74): an optional recorded exit code for a failed command, and the two drained
output streams. A command that completed successfully reports no failure exit code (`none`);
a failed command reports `some code`. -/
structure ExecResult where
  exitCode : Option Int
  stdout : String
  stderr : String
  deriving DecidableEq

/-- `AptosContainer::run_command` (lib.rs lines 53-74): checks the recorded exit code first and
fails with `DockerExecFailed(code)` before touching the streams; otherwise drains stdout and
stderr and returns the pair. -/
def run_command (res : ExecResult) : Except MovementTestContainerError (String × String) :=
  match res.exitCode with
  | some code => .error (.dockerExecFailed code)
  | none => .ok (res.stdout, res.stderr)

/-! ## Account pool (lib.rs lines 76-110 and 146-177) -/

/-- `ACCOUNTS_ENV` (lib.rs line 44). -/
def ACCOUNTS_ENV : String := "ACCOUNTS"

/-- Rust `str::split(",")` on a character list: splits at every comma, keeping empty pieces
(`"".split(",")` yields one empty piece). -/
def splitComma : List Char → List (List Char)
  | [] => [[]]
  | c :: rest =>
    if c = ',' then [] :: splitComma rest
    else
      match splitComma rest with
      | [] => [[c]]
      | w :: ws => (c :: w) :: ws

/-- Rust `str::trim` on a character list: drops whitespace from both ends (ASCII whitespace; the
Unicode extras of `char::is_whitespace` are irrelevant to every claim). -/
def rustTrim (s : List Char) : List Char :=
  ((s.dropWhile Char.isWhitespace).reverse.dropWhile Char.isWhitespace).reverse

/-- The account roster parsed by `lazy_init_accounts` (lib.rs lines 97-101):
`stdout.trim().split(",")` collected into a vector of strings. -/
def parseAccounts (stdout : String) : List String :=
  (splitComma (rustTrim stdout.toList)).map String.mk

/-- State of the account pool: the roster vector (`accounts`), the buffered contents of the mpsc
accounts channel in FIFO order (`queue`), and the account vectors currently checked out by
in-flight `run` calls (`leased`). -/
structure PoolState where
  roster : List String
  queue : List String
  leased : List (List String)
  deriving DecidableEq

/-- Pool state right after `lazy_init_accounts` seeds the channel (lib.rs lines 102-108): every
roster account is sent into the channel once, in order, and nothing is leased. -/
def initPool (roster : List String) : PoolState :=
  ⟨roster, roster, []⟩

/-- `AptosContainer::lazy_init_accounts` (lib.rs lines 76-110). The override-accounts guard and
the already-initialized guard return without touching the pool (`.ok none`); otherwise the
outcome of `echo $ACCOUNTS` decides: empty stdout fails via `ensure!`, and non-empty stdout
parses the roster and seeds the channel with it. -/
def lazy_init_accounts (overrideAccounts : Option (List String)) (alreadyInit : Bool)
    (stdout stderr : String) : Except MovementTestContainerError (Option PoolState) :=
  if overrideAccounts.isSome then .ok none
  else if alreadyInit then .ok none
  else if stdout = "" then
    .error (.commandFailed ("echo $" ++ ACCOUNTS_ENV)
      ("stdout: " ++ stdout ++ " \n\n stderr: " ++ stderr))
  else .ok (some (initPool (parseAccounts stdout)))

/-- Bool test for an initialization failure, used to state claims decidably. -/
def initFailed (r : Except MovementTestContainerError (Option PoolState)) : Bool :=
  match r with
  | .error _ => true
  | .ok _ => false

/-- tokio `Receiver::recv_many(&mut result, limit)` as used in `run` (lib.rs lines 157-163):
once the wait is over it moves the first `min limit queue.length` buffered messages out of the
channel. Returns (received messages, remaining queue). -/
def recvMany (limit : Nat) (queue : List String) : List String × List String :=
  (queue.take limit, queue.drop limit)

/-- Wake-up condition of `recv_many`: it suspends only while the channel buffer is empty (and the
limit is positive); it resumes as soon as at least one message is buffered, regardless of how
many were requested. -/
def recvManyEnabled (limit : Nat) (queue : List String) : Bool :=
  limit == 0 || !queue.isEmpty

/-- `AptosContainer::run` (lib.rs lines 146-177) on an initialized pool: with an override list the
callback gets that fixed list and the queue is untouched; otherwise `recv_many` takes accounts
from the queue, the callback runs, every received account is sent back into the channel
(appended to the queue in order), and the callback's result is returned. -/
def run (overrideAccounts : Option (List String)) (queue : List String) (n : Nat)
    (cb : List String → Except MovementTestContainerError Unit) :
    Except MovementTestContainerError Unit × List String :=
  match overrideAccounts with
  | some accounts => (cb accounts, queue)
  | none => (cb (recvMany n queue).1, (recvMany n queue).2 ++ (recvMany n queue).1)

/-- One atomic interaction with the pool, for stating the conservation invariant over arbitrary
interleavings of `run` calls: `lease` is the `recv_many` step (enabled exactly when `recv_many`
would not suspend), `release` is the send-back loop of one `run` call returning its accounts. -/
inductive PoolStep : PoolState → PoolState → Prop where
  | lease (s : PoolState) (n : Nat) (h : n = 0 ∨ s.queue ≠ []) :
      PoolStep s ⟨s.roster, s.queue.drop n, s.queue.take n :: s.leased⟩
  | release (s : PoolState) (l : List String) (pre post : List (List String))
      (h : s.leased = pre ++ l :: post) :
      PoolStep s ⟨s.roster, s.queue ++ l, pre ++ post⟩

/-- States reachable from a freshly initialized pool by lease/release steps. -/
def ReachablePool (roster : List String) (s : PoolState) : Prop :=
  Relation.ReflTransGen PoolStep (initPool roster) s

/-- The conservation invariant of claim C2: accounts in the channel plus accounts held by
outstanding leases form exactly the roster, as a multiset. -/
def poolInvariant (s : PoolState) : Prop :=
  Multiset.ofList s.queue + (s.leased.map Multiset.ofList).sum = Multiset.ofList s.roster

/-! ## Base64 transfer pipeline (lib.rs lines 112-144, constants lines 45-46) -/

/-- `CONTENT_MAX_CHARS` (lib.rs line 45). -/
def CONTENT_MAX_CHARS : Nat := 120000

/-- `MOVE_TOML` (lib.rs line 46): the placeholder manifest bytes, a single zero byte. -/
def MOVE_TOML : List Nat := [0]

/-- The standard base64 alphabet used by `BASE64_STANDARD` and `base64 --decode`. -/
def base64Alphabet : List Char :=
  ['A', 'B', 'C', 'D', 'E', 'F', 'G', 'H', 'I', 'J', 'K', 'L', 'M',
   'N', 'O', 'P', 'Q', 'R', 'S', 'T', 'U', 'V', 'W', 'X', 'Y', 'Z',
   'a', 'b', 'c', 'd', 'e', 'f', 'g', 'h', 'i', 'j', 'k', 'l', 'm',
   'n', 'o', 'p', 'q', 'r', 's', 't', 'u', 'v', 'w', 'x', 'y', 'z',
   '0', '1', '2', '3', '4', '5', '6', '7', '8', '9', '+', '/']

/-- Character of a 6-bit value. -/
def b64Char (n : Nat) : Char :=
  base64Alphabet.getD n 'A'

/-- 6-bit value of an alphabet character. -/
def b64Val (c : Char) : Nat :=
  base64Alphabet.indexOf c

/-- `BASE64_STANDARD.encode` (lib.rs line 127): standard base64 with `=` padding, processing the
byte list in groups of three. -/
def base64Encode : List Nat → List Char
  | [] => []
  | [b0] => [b64Char (b0 / 4), b64Char (b0 % 4 * 16), '=', '=']
  | [b0, b1] => [b64Char (b0 / 4), b64Char (b0 % 4 * 16 + b1 / 16), b64Char (b1 % 16 * 4), '=']
  | b0 :: b1 :: b2 :: rest =>
      b64Char (b0 / 4) :: b64Char (b0 % 4 * 16 + b1 / 16) ::
        b64Char (b1 % 16 * 4 + b2 / 64) :: b64Char (b2 % 64) :: base64Encode rest

/-- `base64 --decode` applied to one chunk (lib.rs line 134): decodes groups of four characters,
accepting `=` padding only in the final group. Character-level validation of the external tool
is out of scope; every chunk fed to it by `copy_contracts` comes from `BASE64_STANDARD.encode`. -/
def base64Decode : List Char → Option (List Nat)
  | [] => some []
  | c0 :: c1 :: c2 :: c3 :: rest =>
    if c3 = '=' then
      if rest = [] then
        if c2 = '=' then some [b64Val c0 * 4 + b64Val c1 / 16]
        else some [b64Val c0 * 4 + b64Val c1 / 16, b64Val c1 % 16 * 16 + b64Val c2 / 4]
      else none
    else
      match base64Decode rest with
      | some bs =>
          some ((b64Val c0 * 4 + b64Val c1 / 16) ::
            (b64Val c1 % 16 * 16 + b64Val c2 / 4) ::
            (b64Val c2 % 4 * 64 + b64Val c3) :: bs)
      | none => none
  | _ => none

/-- Rust `slice::chunks(CONTENT_MAX_CHARS)` on the encoded character vector (lib.rs lines
128-132): successive chunks of 120000 characters, the last chunk possibly shorter, no chunks for
an empty input. -/
def chunksOf : List Char → List (List Char)
  | [] => []
  | c :: rest =>
      (c :: rest).take CONTENT_MAX_CHARS :: chunksOf ((c :: rest).drop CONTENT_MAX_CHARS)
  termination_by l => l.length
  decreasing_by
    simp only [List.length_drop, List.length_cons, CONTENT_MAX_CHARS]
    omega

/-- Reassembly on the container side (lib.rs lines 133-141): each chunk is decoded independently
by its own `echo chunk | base64 --decode >> dest` command and the decoded bytes are appended to
the destination file in chunk order. -/
def applyChunks : List (List Char) → Option (List Nat)
  | [] => some []
  | c :: cs =>
    match base64Decode c, applyChunks cs with
    | some b, some r => some (b ++ r)
    | _, _ => none

/-- A byte sequence whose encoding spans two chunks, used to exhibit that chunk order matters:
90000 zero bytes (exactly one full 120000-character chunk) followed by the byte 1. -/
def c6badInput : List Nat :=
  List.replicate 90000 0 ++ [1]

/-- The bytes that end up in the staged placeholder `Move.toml` (lib.rs lines 198-209): the
command base64-encodes `MOVE_TOML`, pipes it through `base64 --decode` and overwrites the
destination file with the result. -/
def stagedMoveTomlContent : Option (List Nat) :=
  base64Decode (base64Encode MOVE_TOML)

/-- Necessary syntactic condition on one byte of a valid TOML document: TOML is UTF-8 text in
which control characters other than tab (0x09), LF (0x0A) and CR (0x0D) never appear; in
particular no valid TOML manifest contains a NUL byte. -/
def tomlAllowedByte (b : Nat) : Prop :=
  b = 9 ∨ b = 10 ∨ b = 13 ∨ 32 ≤ b

/-- Necessary syntactic condition for a byte sequence to be a valid TOML document. -/
def tomlPossiblyValid (bs : List Nat) : Prop :=
  ∀ b ∈ bs, tomlAllowedByte b

instance : DecidablePred tomlAllowedByte := fun b => by
  unfold tomlAllowedByte
  infer_instance

instance : DecidablePred tomlPossiblyValid := fun bs => by
  unfold tomlPossiblyValid
  infer_instance

/-! ## Deployment cache and publisher (lib.rs lines 179-252) -/

/-- The literal success marker scanned for in the publish tool's stdout (lib.rs lines 225, 240). -/
def successMarker : String := "\"vm_status\": \"Executed successfully\""

/-- Whether `pat` occurs at the start of `s` (character lists). -/
def charsStartWith : List Char → List Char → Bool
  | [], _ => true
  | _ :: _, [] => false
  | a :: as, b :: bs => a == b && charsStartWith as bs

/-- Whether `pat` occurs somewhere inside `s` (character lists). -/
def charsContain (pat : List Char) : List Char → Bool
  | [] => pat.isEmpty
  | c :: rest => charsStartWith pat (c :: rest) || charsContain pat rest

/-- Rust `str::contains(pattern)`: substring test. -/
def containsSub (s pat : String) : Bool :=
  charsContain pat.toList s.toList

/-- The success test applied to one publish invocation's stdout (lib.rs lines 224-230). -/
def publishOutputOk (stdout : String) : Bool :=
  containsSub stdout successMarker

/-- One `aptos move publish` invocation (lib.rs lines 219-230 and 234-245): the command is run
through `run_command`, then `ensure!` demands the literal success marker in stdout; its absence
fails the call even when the command itself reported no failing exit code. -/
def publishStep (command : String) (res : ExecResult) : Except MovementTestContainerError Unit :=
  match run_command res with
  | .error e => .error e
  | .ok (stdout, stderr) =>
    if publishOutputOk stdout then .ok ()
    else .error (.commandFailed command ("stdout: " ++ stdout ++ " \n\n stderr: " ++ stderr))

/-- The placeholder-manifest write (lib.rs lines 198-209): run the write command, then `ensure!`
that its stderr is empty. -/
def writeMoveToml (res : ExecResult) : Except MovementTestContainerError Unit :=
  match run_command res with
  | .error e => .error e
  | .ok (_, stderr) => if stderr = "" then .ok () else .error (.commandFailed "write Move.toml" stderr)

/-- `contract_key` (lib.rs line 186): `format!("{}:{}", private_key, absolute_contract_path)`. -/
def contractKey (privateKey absoluteDir : String) : String :=
  privateKey ++ ":" ++ absoluteDir

/-- Externally observable side effects of one `upload_contracts` call. -/
inductive UploadEvent where
  | staged
  | wroteMoveToml
  | publishInvoked (subPackage : Option String)
  deriving DecidableEq

/-- The outcomes the container would produce for the commands `upload_contracts` may issue:
the overall outcome of the `copy_contracts` staging loop, the `Move.toml` write command, and the
publish command for each target (`none` is the whole-package publish, `some p` the publish of
sub-package `p`). -/
structure UploadWorld where
  copyContracts : Except MovementTestContainerError Unit
  moveTomlCmd : ExecResult
  publishCmd : Option String → ExecResult

/-- Result of one `upload_contracts` call: the returned value, the deployment cache afterwards,
and the emitted side effects in order. -/
structure UploadOutcome where
  result : Except MovementTestContainerError Unit
  cache : Finset String
  events : List UploadEvent

/-- The publish loop (lib.rs lines 217-248): publishes each target in list order and aborts on
the first failure, recording one `publishInvoked` event per actual invocation. -/
def publishAll (w : UploadWorld) : List (Option String) → List UploadEvent × Except MovementTestContainerError Unit
  | [] => ([], .ok ())
  | p :: ps =>
    match publishStep "aptos move publish" (w.publishCmd p) with
    | .error e => ([.publishInvoked p], .error e)
    | .ok _ =>
      let rest := publishAll w ps
      (.publishInvoked p :: rest.1, rest.2)

/-- `AptosContainer::upload_contracts` (lib.rs lines 179-252): no-op when deployment is disabled;
under the cache lock, a short-circuit success when the key is present and override is false;
otherwise stage the tree, write the placeholder manifest when no sub-package list is given, run
the publish loop, and insert the key into the cache only after everything succeeded. -/
def upload_contracts (deploy : Bool) (cache : Finset String) (privateKey absoluteDir : String)
    (subPackages : Option (List String)) (overrideContract : Bool) (w : UploadWorld) :
    UploadOutcome :=
  if deploy = false then ⟨.ok (), cache, []⟩
  else if overrideContract = false ∧ contractKey privateKey absoluteDir ∈ cache then
    ⟨.ok (), cache, []⟩
  else
    match w.copyContracts with
    | .error e => ⟨.error e, cache, [.staged]⟩
    | .ok _ =>
      match subPackages with
      | none =>
        match writeMoveToml w.moveTomlCmd with
        | .error e => ⟨.error e, cache, [.staged, .wroteMoveToml]⟩
        | .ok _ =>
          match publishAll w [none] with
          | (evs, .error e) => ⟨.error e, cache, .staged :: .wroteMoveToml :: evs⟩
          | (evs, .ok _) =>
              ⟨.ok (), insert (contractKey privateKey absoluteDir) cache,
                .staged :: .wroteMoveToml :: evs⟩
      | some pkgs =>
        match publishAll w (pkgs.map some) with
        | (evs, .error e) => ⟨.error e, cache, .staged :: evs⟩
        | (evs, .ok _) =>
            ⟨.ok (), insert (contractKey privateKey absoluteDir) cache, .staged :: evs⟩

/-- Number of publish-tool invocations among a list of events. -/
def countPublish (evs : List UploadEvent) : Nat :=
  (evs.filter fun e =>
    match e with
    | .publishInvoked _ => true
    | _ => false).length

end AptosContainer

namespace AptosContainer

/-! ## Theorems -/

/-- Lease and release steps preserve the pool conservation invariant. -/
theorem pool_step_preserves_invariant {s t : PoolState} (h : PoolStep s t)
    (hs : poolInvariant s) : poolInvariant t := by
  cases h with
  | lease n hen =>
    unfold poolInvariant at hs ⊢
    simp only [List.map_cons, List.sum_cons]
    have hq : Multiset.ofList (s.queue.take n) + Multiset.ofList (s.queue.drop n)
        = Multiset.ofList s.queue := by
      rw [Multiset.coe_add, List.take_append_drop]
    rw [← hs, ← hq]
    abel
  | release l pre post hl =>
    unfold poolInvariant at hs ⊢
    rw [hl] at hs
    simp only [List.map_append, List.map_cons, List.sum_append, List.sum_cons] at hs ⊢
    rw [← hs, ← Multiset.coe_add]
    abel

/-- C2: after initialization seeds the queue with the roster, every state reachable by any
sequence of lease and release steps satisfies: queue contents plus outstanding leases equal the
roster as a multiset — accounts are neither created, destroyed nor duplicated. -/
theorem c2_pool_conservation (roster : List String) (s : PoolState)
    (h : ReachablePool roster s) : poolInvariant s := by
  unfold ReachablePool at h
  induction h with
  | refl => simp [poolInvariant, initPool]
  | tail hab hbc ih => exact pool_step_preserves_invariant hbc ih

theorem c2_pool_conservation_witness : poolInvariant (initPool ["acct-A", "acct-B"]) :=
  c2_pool_conservation ["acct-A", "acct-B"] (initPool ["acct-A", "acct-B"])
    Relation.ReflTransGen.refl

/-- C1 (failing input for the code bug): with a single account buffered in the channel,
`recv_many` with limit 2 is already enabled (it suspends only while the channel is empty), and
the `run` call proceeds with only one account instead of suspending until two are available:
a callback demanding two accounts observes just one. -/
theorem c1_recv_many_underfill :
    recvManyEnabled 2 ["acct-A"] = true ∧
    (recvMany 2 ["acct-A"]).1 = ["acct-A"] ∧
    ((recvMany 2 ["acct-A"]).1).length ≠ 2 ∧
    (run none ["acct-A"] 2 fun accounts =>
        if accounts.length = 2 then .ok () else .error (.commandFailed "callback" "underfilled")).1
      = .error (.commandFailed "callback" "underfilled") :=
  ⟨rfl, rfl, by decide, rfl⟩

/-- C3: with no override list, `run` passes the received accounts to the callback, propagates the
callback's result unchanged (success or error), and afterwards the queue holds exactly the same
accounts as before — every leased account is back in the queue. -/
theorem c3_run_releases_and_propagates (queue : List String) (n : Nat)
    (cb : List String → Except MovementTestContainerError Unit) :
    (run none queue n cb).1 = cb (recvMany n queue).1 ∧
    ((run none queue n cb).2 : Multiset String) = (queue : Multiset String) ∧
    ∀ a ∈ (recvMany n queue).1, a ∈ (run none queue n cb).2 := by
  refine ⟨rfl, ?_, ?_⟩
  · show ((queue.drop n ++ queue.take n : List String) : Multiset String)
      = (queue : Multiset String)
    rw [← Multiset.coe_add, add_comm, Multiset.coe_add, List.take_append_drop]
  · intro a ha
    show a ∈ queue.drop n ++ queue.take n
    exact List.mem_append.mpr (Or.inr ha)

theorem c3_run_releases_and_propagates_witness :
    (run none ["acct-A", "acct-B"] 1 fun _ => .error (.commandFailed "job" "failed")).1
      = .error (.commandFailed "job" "failed") :=
  (c3_run_releases_and_propagates ["acct-A", "acct-B"] 1
    fun _ => .error (.commandFailed "job" "failed")).1

/-- C8: `run_command` fails with `DockerExecFailed(code)` exactly when a failing exit code is
recorded — the error carries only the code, surfacing no stream output — and on a successful
exit it returns the drained (stdout, stderr) pair. -/
theorem c8_run_command (res : ExecResult) (h : res.exitCode ≠ some 0) :
    ((run_command res = .ok (res.stdout, res.stderr)) ↔ res.exitCode = none) ∧
    (∀ code : Int, res.exitCode = some code →
      run_command res = .error (.dockerExecFailed code)) := by
  rcases res with ⟨ec, so, se⟩
  cases ec with
  | none =>
    refine ⟨by simp [run_command], ?_⟩
    intro code hc
    exact Option.noConfusion hc
  | some c =>
    refine ⟨⟨fun hok => ?_, fun hn => Option.noConfusion hn⟩, fun code hc => ?_⟩
    · simp [run_command] at hok
    · injection hc with hc2
      subst hc2
      rfl

theorem c8_run_command_witness :
    run_command ⟨some 1, "out", "err"⟩ = .error (.dockerExecFailed 1) :=
  (c8_run_command ⟨some 1, "out", "err"⟩ (by decide)).2 1 rfl

/-- C9: with no override list and the pool not yet initialized, `lazy_init_accounts` fails
exactly when the roster command's stdout is empty; otherwise it populates the roster from the
trimmed, comma-split stdout and seeds the queue with exactly the roster, each account once. -/
theorem c9_lazy_init_accounts (stdout stderr : String) :
    (stdout = "" → initFailed (lazy_init_accounts none false stdout stderr) = true) ∧
    (stdout ≠ "" → initFailed (lazy_init_accounts none false stdout stderr) = false) ∧
    (∀ s, lazy_init_accounts none false stdout stderr = .ok (some s) →
      s.roster = parseAccounts stdout ∧ s.queue = s.roster ∧
        (∀ a, s.queue.count a = s.roster.count a) ∧ s.leased = []) := by
  refine ⟨fun h => ?_, fun h => ?_, fun s hs => ?_⟩
  · simp [lazy_init_accounts, initFailed, h]
  · simp [lazy_init_accounts, initFailed, h]
  · by_cases h : stdout = ""
    · simp [lazy_init_accounts, h] at hs
    · simp [lazy_init_accounts, h] at hs
      subst hs
      exact ⟨rfl, rfl, fun a => rfl, rfl⟩

theorem c9_lazy_init_accounts_witness :
    initFailed (lazy_init_accounts none false "acct-A,acct-B" "") = false :=
  (c9_lazy_init_accounts "acct-A,acct-B" "").2.1 (by decide)

/-- C7 (counterexample to the claim as stated): a publish invocation whose combined output
contains the success marker only in stderr is judged a failure — the code inspects stdout
alone, so "combined output contains the marker" does not imply success. -/
theorem c7_marker_in_stderr_not_success :
    containsSub (("" : String) ++ successMarker) successMarker = true ∧
    publishStep "aptos move publish" ⟨none, "", successMarker⟩ ≠ .ok () := by
  refine ⟨rfl, fun h => ?_⟩
  have h2 : publishStep "aptos move publish" ⟨none, "", successMarker⟩ =
      .error (.commandFailed "aptos move publish"
        ("stdout: " ++ "" ++ " \n\n stderr: " ++ successMarker)) := rfl
  rw [h2] at h
  exact Except.noConfusion h

/-- C7 (amended): a publish invocation is judged successful iff the command reported no failing
exit code and its standard output — stderr does not count — contains the literal success marker;
in particular a zero-exit command without the marker in stdout is a failure. -/
theorem c7_success_iff_marker_in_stdout (command : String) (res : ExecResult) :
    publishStep command res = .ok () ↔
      res.exitCode = none ∧ publishOutputOk res.stdout = true := by
  rcases res with ⟨ec, so, se⟩
  cases ec with
  | some c => simp [publishStep, run_command]
  | none =>
    by_cases hm : publishOutputOk so = true
    · simp [publishStep, run_command, hm]
    · simp [publishStep, run_command, hm]

/-- C5: whenever `upload_contracts` returns an error — staging failure, manifest-write failure,
or any failed publish invocation — the deployment cache is left exactly as it was, so a later
call with the same key re-attempts the full upload. -/
theorem c5_failed_upload_leaves_cache (deploy : Bool) (cache : Finset String)
    (pk dir : String) (sub : Option (List String)) (ov : Bool) (w : UploadWorld)
    (e : MovementTestContainerError)
    (h : (upload_contracts deploy cache pk dir sub ov w).result = .error e) :
    (upload_contracts deploy cache pk dir sub ov w).cache = cache := by
  revert h
  unfold upload_contracts
  split
  · intro h
    exact absurd h (by simp)
  · split
    · intro h
      exact absurd h (by simp)
    · split
      · intro h
        rfl
      · split
        · split
          · intro h
            rfl
          · split
            · intro h
              rfl
            · intro h
              exact absurd h (by simp)
        · split
          · intro h
            rfl
          · intro h
            exact absurd h (by simp)

theorem c5_failed_upload_leaves_cache_witness :
    (upload_contracts true ∅ "k" "/d" none false
      ⟨.error (.commandFailed "rm -rf" "boom"), ⟨none, "", ""⟩, fun _ => ⟨none, "", ""⟩⟩).cache
      = ∅ :=
  c5_failed_upload_leaves_cache true ∅ "k" "/d" none false
    ⟨.error (.commandFailed "rm -rf" "boom"), ⟨none, "", ""⟩, fun _ => ⟨none, "", ""⟩⟩
    (.commandFailed "rm -rf" "boom") rfl

/-- C10: the placeholder `Move.toml` staged when no sub-package list is given has as its content
exactly the single zero byte 0x00, which no syntactically valid TOML document may contain. -/
theorem c10_move_toml_placeholder :
    MOVE_TOML = [0] ∧ stagedMoveTomlContent = some [0] ∧ ¬ tomlPossiblyValid [0] :=
  ⟨rfl, rfl, by decide⟩

end AptosContainer

namespace AptosContainer

/-- C4: with deployment enabled and a key not yet cached, a whole-package `upload_contracts`
call that succeeds records the key and invokes the publish tool exactly once; a second call for
the same key with `override_contract = false` then returns success immediately, staging nothing
and publishing nothing, so across the two calls the publish tool runs exactly once. -/
theorem c4_upload_idempotent (cache : Finset String) (pk dir : String) (ov1 : Bool)
    (w1 w2 : UploadWorld) (sub2 : Option (List String))
    (hkey : contractKey pk dir ∉ cache)
    (h1 : (upload_contracts true cache pk dir none ov1 w1).result = .ok ()) :
    countPublish (upload_contracts true cache pk dir none ov1 w1).events = 1 ∧
    contractKey pk dir ∈ (upload_contracts true cache pk dir none ov1 w1).cache ∧
    (upload_contracts true (upload_contracts true cache pk dir none ov1 w1).cache
      pk dir sub2 false w2).result = .ok () ∧
    (upload_contracts true (upload_contracts true cache pk dir none ov1 w1).cache
      pk dir sub2 false w2).events = [] ∧
    (upload_contracts true (upload_contracts true cache pk dir none ov1 w1).cache
      pk dir sub2 false w2).cache = (upload_contracts true cache pk dir none ov1 w1).cache ∧
    countPublish ((upload_contracts true cache pk dir none ov1 w1).events ++
      (upload_contracts true (upload_contracts true cache pk dir none ov1 w1).cache
        pk dir sub2 false w2).events) = 1 := by
  have hmain : upload_contracts true cache pk dir none ov1 w1 =
      ⟨.ok (), insert (contractKey pk dir) cache,
        [.staged, .wroteMoveToml, .publishInvoked none]⟩ := by
    revert h1
    unfold upload_contracts
    rw [if_neg (by simp : ¬(true = (false : Bool)))]
    rw [if_neg (fun hc => hkey hc.2)]
    cases hcopy : w1.copyContracts with
    | error e2 =>
      intro h1
      exact absurd h1 (by simp)
    | ok u =>
      cases u
      cases hm : writeMoveToml w1.moveTomlCmd with
      | error e2 =>
        intro h1
        exact absurd h1 (by simp)
      | ok u2 =>
        cases u2
        cases hps : publishStep "aptos move publish" (w1.publishCmd none) with
        | error e2 =>
          have hpa : publishAll w1 [none] = ([.publishInvoked none], .error e2) := by
            simp [publishAll, hps]
          rw [hpa]
          intro h1
          exact absurd h1 (by simp)
        | ok u3 =>
          cases u3
          have hpa : publishAll w1 [none] = ([.publishInvoked none], .ok ()) := by
            simp [publishAll, hps]
          rw [hpa]
          intro h1
          rfl
  have hsecond : upload_contracts true (insert (contractKey pk dir) cache) pk dir sub2 false w2
      = ⟨.ok (), insert (contractKey pk dir) cache, []⟩ := by
    unfold upload_contracts
    rw [if_neg (by simp : ¬(true = (false : Bool)))]
    rw [if_pos ⟨rfl, Finset.mem_insert_self _ _⟩]
  rw [hmain, hsecond]
  exact ⟨rfl, Finset.mem_insert_self _ _, rfl, rfl, rfl, rfl⟩

theorem c4_upload_idempotent_witness :
    countPublish (upload_contracts true ∅ "k" "/d" none false
      ⟨.ok (), ⟨none, "", ""⟩, fun _ => ⟨none, successMarker, ""⟩⟩).events = 1 :=
  (c4_upload_idempotent ∅ "k" "/d" false
    ⟨.ok (), ⟨none, "", ""⟩, fun _ => ⟨none, successMarker, ""⟩⟩
    ⟨.ok (), ⟨none, "", ""⟩, fun _ => ⟨none, successMarker, ""⟩⟩ none
    (by decide) rfl).1

end AptosContainer

namespace AptosContainer

/-- Decoding an alphabet character recovers its 6-bit value. -/
theorem b64Val_b64Char : ∀ n, n < 64 → b64Val (b64Char n) = n := by decide

/-- No alphabet character is the padding character. -/
theorem b64Char_ne_pad (n : Nat) : b64Char n ≠ '=' := by
  by_cases h : n < 64
  · exact (by decide : ∀ m, m < 64 → b64Char m ≠ '=') n h
  · have hlen : base64Alphabet.length = 64 := rfl
    unfold b64Char
    rw [List.getD_eq_default _ _ (by omega)]
    decide

/-- Decoding inverts encoding on byte lists. -/
theorem base64_decode_encode :
    ∀ (k : Nat) (bs : List Nat), bs.length ≤ k → (∀ b ∈ bs, b < 256) →
      base64Decode (base64Encode bs) = some bs := by
  intro k
  induction k with
  | zero =>
    intro bs hl _
    have hnil : bs = [] := List.eq_nil_of_length_eq_zero (Nat.le_zero.mp hl)
    subst hnil
    rfl
  | succ k ih =>
    intro bs hl hb
    cases bs with
    | nil => rfl
    | cons b0 bs1 =>
      cases bs1 with
      | nil =>
        have h0 : b0 < 256 := hb b0 (by simp)
        have e1 : b64Val (b64Char (b0 / 4)) = b0 / 4 := b64Val_b64Char _ (by omega)
        have e2 : b64Val (b64Char (b0 % 4 * 16)) = b0 % 4 * 16 := b64Val_b64Char _ (by omega)
        simp [base64Encode, base64Decode, e1, e2]
        omega
      | cons b1 bs2 =>
        cases bs2 with
        | nil =>
          have h0 : b0 < 256 := hb b0 (by simp)
          have h1 : b1 < 256 := hb b1 (by simp)
          have e1 : b64Val (b64Char (b0 / 4)) = b0 / 4 := b64Val_b64Char _ (by omega)
          have e2 : b64Val (b64Char (b0 % 4 * 16 + b1 / 16)) = b0 % 4 * 16 + b1 / 16 :=
            b64Val_b64Char _ (by omega)
          have e3 : b64Val (b64Char (b1 % 16 * 4)) = b1 % 16 * 4 := b64Val_b64Char _ (by omega)
          have hne : b64Char (b1 % 16 * 4) ≠ '=' := b64Char_ne_pad _
          simp [base64Encode, base64Decode, e1, e2, e3, hne]
          omega
        | cons b2 rest =>
          have h0 : b0 < 256 := hb b0 (by simp)
          have h1 : b1 < 256 := hb b1 (by simp)
          have h2 : b2 < 256 := hb b2 (by simp)
          have hrest : ∀ b ∈ rest, b < 256 := fun b hbm => hb b (by simp [hbm])
          have hlen : rest.length ≤ k := by
            simp only [List.length_cons] at hl
            omega
          have ihr := ih rest hlen hrest
          have hne : b64Char (b2 % 64) ≠ '=' := b64Char_ne_pad _
          have e1 : b64Val (b64Char (b0 / 4)) = b0 / 4 := b64Val_b64Char _ (by omega)
          have e2 : b64Val (b64Char (b0 % 4 * 16 + b1 / 16)) = b0 % 4 * 16 + b1 / 16 :=
            b64Val_b64Char _ (by omega)
          have e3 : b64Val (b64Char (b1 % 16 * 4 + b2 / 64)) = b1 % 16 * 4 + b2 / 64 :=
            b64Val_b64Char _ (by omega)
          have e4 : b64Val (b64Char (b2 % 64)) = b2 % 64 := b64Val_b64Char _ (by omega)
          simp only [base64Encode, base64Decode, hne, if_neg, ihr, e1, e2, e3, e4]
          have hB0 : b0 / 4 * 4 + (b0 % 4 * 16 + b1 / 16) / 16 = b0 := by omega
          have hB1 : (b0 % 4 * 16 + b1 / 16) % 16 * 16 + (b1 % 16 * 4 + b2 / 64) / 4 = b1 := by
            omega
          have hB2 : (b1 % 16 * 4 + b2 / 64) % 4 * 64 + b2 % 64 = b2 := by omega
          simp [hB0, hB1, hB2]

end AptosContainer

namespace AptosContainer

/-- Unfolding lemma: the empty byte list encodes to no characters. -/
theorem base64Encode_nil : base64Encode [] = [] := by
  simp [base64Encode]

/-- Encoding distributes over append at 3-byte boundaries. -/
theorem base64Encode_append :
    ∀ (k : Nat) (a b : List Nat), a.length ≤ k → a.length % 3 = 0 →
      base64Encode (a ++ b) = base64Encode a ++ base64Encode b := by
  intro k
  induction k with
  | zero =>
    intro a b hl _
    have hnil : a = [] := List.eq_nil_of_length_eq_zero (Nat.le_zero.mp hl)
    subst hnil
    simp [base64Encode_nil]
  | succ k ih =>
    intro a b hl h3
    cases a with
    | nil => simp [base64Encode_nil]
    | cons x a1 =>
      cases a1 with
      | nil => simp at h3
      | cons y a2 =>
        cases a2 with
        | nil => simp at h3
        | cons z a3 =>
          have hlen2 : a3.length ≤ k := by
            simp only [List.length_cons] at hl
            omega
          have h32 : a3.length % 3 = 0 := by
            simp only [List.length_cons] at h3 ⊢
            omega
          show base64Encode (x :: y :: z :: (a3 ++ b)) = _
          simp only [base64Encode, ih a3 b hlen2 h32, List.cons_append]

/-- Length of the encoding: four characters per started group of three bytes. -/
theorem base64Encode_length :
    ∀ (k : Nat) (bs : List Nat), bs.length ≤ k →
      (base64Encode bs).length = (bs.length + 2) / 3 * 4 := by
  intro k
  induction k with
  | zero =>
    intro bs hl
    have hnil : bs = [] := List.eq_nil_of_length_eq_zero (Nat.le_zero.mp hl)
    subst hnil
    simp [base64Encode_nil]
  | succ k ih =>
    intro bs hl
    cases bs with
    | nil => simp [base64Encode_nil]
    | cons b0 bs1 =>
      cases bs1 with
      | nil => simp [base64Encode]
      | cons b1 bs2 =>
        cases bs2 with
        | nil => simp [base64Encode]
        | cons b2 rest =>
          have hlen2 : rest.length ≤ k := by
            simp only [List.length_cons] at hl
            omega
          simp only [base64Encode, List.length_cons, ih rest hlen2]
          omega

/-- Unfolding lemma for `chunksOf` on the empty list. -/
theorem chunksOf_nil : chunksOf [] = [] := by
  simp [chunksOf]

/-- Unfolding lemma for `chunksOf` on a non-empty list. -/
theorem chunksOf_ne_nil (l : List Char) (h : l ≠ []) :
    chunksOf l = l.take CONTENT_MAX_CHARS :: chunksOf (l.drop CONTENT_MAX_CHARS) := by
  cases l with
  | nil => exact absurd rfl h
  | cons c rest => simp only [chunksOf]

/-- Reassembling the in-order chunks of an encoded byte list recovers the bytes. -/
theorem applyChunks_reassembles :
    ∀ (k : Nat) (bs : List Nat), bs.length ≤ k → (∀ b ∈ bs, b < 256) →
      applyChunks (chunksOf (base64Encode bs)) = some bs := by
  intro k
  induction k with
  | zero =>
    intro bs hl _
    have hnil : bs = [] := List.eq_nil_of_length_eq_zero (Nat.le_zero.mp hl)
    subst hnil
    rw [base64Encode_nil, chunksOf_nil]
    rfl
  | succ k ih =>
    intro bs hl hb
    have hCMC : CONTENT_MAX_CHARS = 120000 := rfl
    by_cases hsmall : bs.length ≤ 90000
    · by_cases hnil : bs = []
      · subst hnil
        rw [base64Encode_nil, chunksOf_nil]
        rfl
      · have hel : (base64Encode bs).length = (bs.length + 2) / 3 * 4 :=
          base64Encode_length bs.length bs le_rfl
        have hle : (base64Encode bs).length ≤ CONTENT_MAX_CHARS := by omega
        have hbsne : bs.length ≠ 0 := fun hz => hnil (List.eq_nil_of_length_eq_zero hz)
        have hene : base64Encode bs ≠ [] := by
          intro hE
          have hz : (base64Encode bs).length = 0 := by rw [hE]; rfl
          omega
        rw [chunksOf_ne_nil _ hene, List.take_of_length_le hle, List.drop_eq_nil_of_le hle,
          chunksOf_nil]
        simp only [applyChunks]
        rw [base64_decode_encode bs.length bs le_rfl hb]
        simp
    · have ha_len : (bs.take 90000).length = 90000 := by
        rw [List.length_take]
        omega
      have ha3 : (bs.take 90000).length % 3 = 0 := by rw [ha_len]
      have hsplit : bs.take 90000 ++ bs.drop 90000 = bs := List.take_append_drop _ _
      have henc : base64Encode bs
          = base64Encode (bs.take 90000) ++ base64Encode (bs.drop 90000) := by
        conv_lhs => rw [← hsplit]
        exact base64Encode_append (bs.take 90000).length _ _ le_rfl ha3
      have hea_len : (base64Encode (bs.take 90000)).length = CONTENT_MAX_CHARS := by
        rw [base64Encode_length (bs.take 90000).length _ le_rfl, ha_len, hCMC]
      have hene : base64Encode bs ≠ [] := by
        intro hE
        have hz := congrArg List.length hE
        rw [henc, List.length_append, hea_len] at hz
        simp at hz
        omega
      rw [henc, chunksOf_ne_nil _ (henc ▸ hene), ← hea_len, List.take_left, List.drop_left]
      have hdeca : base64Decode (base64Encode (bs.take 90000)) = some (bs.take 90000) :=
        base64_decode_encode (bs.take 90000).length _ le_rfl
          (fun b hbm => hb b (List.take_subset _ _ hbm))
      have hrec : applyChunks (chunksOf (base64Encode (bs.drop 90000)))
          = some (bs.drop 90000) := by
        apply ih
        · rw [List.length_drop]
          omega
        · exact fun b hbm => hb b (List.drop_subset _ _ hbm)
      simp only [applyChunks, hdeca, hrec]
      rw [hsplit]

end AptosContainer

namespace AptosContainer

/-- C6: encoding any byte sequence, splitting the encoded text into 120000-character chunks and
decoding each chunk independently, appending results in chunk order, reconstructs the bytes
exactly; and for a concrete two-chunk input, applying the chunks in the reversed order yields a
different byte sequence — chunk order matters. -/
theorem c6_chunked_transfer :
    (∀ (bs : List Nat), (∀ b ∈ bs, b < 256) →
        applyChunks (chunksOf (base64Encode bs)) = some bs) ∧
    (chunksOf (base64Encode c6badInput)).length = 2 ∧
    applyChunks ((chunksOf (base64Encode c6badInput)).reverse) ≠ some c6badInput := by
  have hCMC : CONTENT_MAX_CHARS = 120000 := rfl
  have ha_len : (List.replicate 90000 (0 : Nat)).length = 90000 := List.length_replicate _ _
  have ha_mem : ∀ b ∈ List.replicate 90000 (0 : Nat), b < 256 := by
    intro b hbm
    rw [List.eq_of_mem_replicate hbm]
    omega
  have ha3 : (List.replicate 90000 (0 : Nat)).length % 3 = 0 := by rw [ha_len]
  have henc : base64Encode c6badInput
      = base64Encode (List.replicate 90000 (0 : Nat)) ++ base64Encode [1] := by
    unfold c6badInput
    exact base64Encode_append (List.replicate 90000 (0 : Nat)).length _ _ le_rfl ha3
  have hea_len : (base64Encode (List.replicate 90000 (0 : Nat))).length = CONTENT_MAX_CHARS := by
    rw [base64Encode_length (List.replicate 90000 (0 : Nat)).length _ le_rfl, ha_len, hCMC]
  have heb_ne : base64Encode [1] ≠ [] := by decide
  have heb_le : (base64Encode [1]).length ≤ CONTENT_MAX_CHARS := by decide
  have hene : base64Encode (List.replicate 90000 (0 : Nat)) ++ base64Encode [1] ≠ [] := by
    intro hE
    exact heb_ne (List.append_eq_nil.mp hE).2
  have hchunks : chunksOf (base64Encode c6badInput)
      = [base64Encode (List.replicate 90000 (0 : Nat)), base64Encode [1]] := by
    rw [henc, chunksOf_ne_nil _ hene, ← hea_len, List.take_left, List.drop_left,
      chunksOf_ne_nil _ heb_ne, List.take_of_length_le heb_le, List.drop_eq_nil_of_le heb_le,
      chunksOf_nil]
  have hdeca : base64Decode (base64Encode (List.replicate 90000 (0 : Nat)))
      = some (List.replicate 90000 (0 : Nat)) :=
    base64_decode_encode _ _ le_rfl ha_mem
  have hdecb : base64Decode (base64Encode [1]) = some [1] := by decide
  have hneg : ∀ (x y : List Char), base64Decode x = some (List.replicate 90000 (0 : Nat)) →
      base64Decode y = some [1] →
      applyChunks (([x, y] : List (List Char)).reverse) ≠ some c6badInput := by
    intro x y hx hy heq
    have hval : applyChunks (([x, y] : List (List Char)).reverse)
        = some (1 :: (List.replicate 90000 (0 : Nat) ++ [])) := by
      show applyChunks [y, x] = _
      simp only [applyChunks, hx, hy, List.singleton_append]
    rw [hval] at heq
    have hlist := Option.some.inj heq
    have hrep : List.replicate 90000 (0 : Nat) = 0 :: List.replicate 89999 0 := by
      rw [(by norm_num : (90000 : Nat) = 89999 + 1), List.replicate_succ]
    have hc6 : c6badInput = 0 :: (List.replicate 89999 0 ++ [1]) := by
      unfold c6badInput
      rw [hrep]
      rfl
    rw [hc6] at hlist
    have hhead := congrArg List.head? hlist
    rw [List.head?_cons, List.head?_cons] at hhead
    exact absurd (Option.some.inj hhead) (by decide)
  refine ⟨fun bs h => applyChunks_reassembles bs.length bs le_rfl h, ?_, ?_⟩
  · rw [hchunks]
    rfl
  · rw [hchunks]
    exact hneg _ _ hdeca hdecb

theorem c6_chunked_transfer_witness :
    applyChunks (chunksOf (base64Encode [0, 1, 2])) = some [0, 1, 2] :=
  c6_chunked_transfer.1 [0, 1, 2] (by decide)

end AptosContainer

namespace AptosContainer

theorem c7_success_iff_marker_in_stdout_witness :
    publishStep "aptos move publish" ⟨none, successMarker, ""⟩ = .ok () :=
  (c7_success_iff_marker_in_stdout "aptos move publish" ⟨none, successMarker, ""⟩).mpr
    ⟨rfl, rfl⟩

end AptosContainer
